import Mathlib

/-!
Verification of the `grex` regular-expression builder core (`src/regexp.rs`).

The file embeds the code of `src/regexp.rs` shallowly in Lean:

* `RegExpBuilder` with its constructor and `with_*` configuration methods,
* `RegExp.sort` (sort, dedup of consecutive duplicates, then sort by
  byte length with lexicographic tie-break),
* `RegExp.grapheme_clusters` (the two normalization stages gated by flags),
* the `Display` implementation for `RegExp` (anchoring and top-level
  parenthesization of alternations).

Rust mutation through `&mut` is modelled by explicit state passing: functions
that mutate their receiver return the updated value.  Rust's stable
`sort`/`sort_by` is modelled by `List.insertionSort`, which is also stable, so
the two agree extensionally; Rust's byte-lexicographic `Ord` on `String`
coincides with code-point-lexicographic order because UTF-8 is
order-preserving, so Lean's lexicographic `String` order is faithful, and
Rust's byte length `len()` is `String.utf8ByteSize`.

The modules `crate::ast`, `crate::dfa` and `crate::grapheme` are used by
`regexp.rs` but their sources are not part of this repository snapshot; the
definitions below that stand for them carry a doc comment starting with
`Modelled from the spec:` and follow the specification text.
-/

/-- Modelled from the spec: a single symbol of a grapheme-cluster sequence
before repetition folding — either a literal grapheme (its code points) or a
character-class placeholder (`crate::grapheme`, spec section 3). -/
inductive GraphemeBase where
  | literal (chars : List Char)
  | digitClass
  | wordClass
  | spaceClass
deriving DecidableEq, Repr

/-- Modelled from the spec: a symbol of a grapheme-cluster sequence, possibly
a bounded-repetition wrapper `(unit, min, max)` over a sub-sequence
(`crate::grapheme`, spec section 3). -/
inductive Grapheme where
  | base (b : GraphemeBase)
  | repetition (seq : List GraphemeBase) (lo hi : Nat)
deriving DecidableEq, Repr

/-- Modelled from the spec: a grapheme-cluster sequence obtained from one
test-case string (`crate::grapheme::GraphemeCluster`). -/
structure GraphemeCluster where
  graphemes : List Grapheme
deriving DecidableEq, Repr

/-- Modelled from the spec: `GraphemeCluster::from` segments a string into
grapheme clusters; segmentation is modelled at code-point granularity (the
claims settled here do not depend on multi-code-point cluster boundaries). -/
def GraphemeCluster.«from» (s : String) : GraphemeCluster :=
  ⟨s.data.map (fun c => Grapheme.base (GraphemeBase.literal [c]))⟩

/-- Modelled from the spec: class conversion of one symbol — a single decimal
digit becomes the digit class, then word characters (letters, digits,
underscore), then whitespace, each gated by its flag, with the digit check
preceding the word check preceding the space check (spec section 4.2). -/
def GraphemeBase.convertClass (d w s : Bool) : GraphemeBase → GraphemeBase
  | GraphemeBase.literal [c] =>
      if d && c.isDigit then GraphemeBase.digitClass
      else if w && (c.isAlphanum || c = '_') then GraphemeBase.wordClass
      else if s && c.isWhitespace then GraphemeBase.spaceClass
      else GraphemeBase.literal [c]
  | g => g

/-- Modelled from the spec: class conversion lifted to one symbol that may
already be a repetition wrapper (the unit sequence is rewritten). -/
def Grapheme.convertClass (d w s : Bool) : Grapheme → Grapheme
  | Grapheme.base b => Grapheme.base (b.convertClass d w s)
  | Grapheme.repetition seq lo hi =>
      Grapheme.repetition (seq.map (GraphemeBase.convertClass d w s)) lo hi

/-- Modelled from the spec: `GraphemeCluster::convert_to_char_classes`
rewrites every symbol of the sequence by `convertClass` (spec section 4.2). -/
def GraphemeCluster.convert_to_char_classes (c : GraphemeCluster)
    (d w s : Bool) : GraphemeCluster :=
  ⟨c.graphemes.map (Grapheme.convertClass d w s)⟩

/-- Modelled from the spec: the number of consecutive copies of `unit` at the
head of `l`, computed with explicit fuel so that it is structurally
recursive. -/
def countRunsAux (unit : List GraphemeBase) : List GraphemeBase → Nat → Nat
  | _, 0 => 0
  | l, fuel + 1 =>
      if unit ≠ [] ∧ unit.isPrefixOf l then
        1 + countRunsAux unit (l.drop unit.length) fuel
      else 0

/-- Modelled from the spec: consecutive-repeat count of `unit` at the head of
`l`. -/
def countRuns (unit l : List GraphemeBase) : Nat :=
  countRunsAux unit l l.length

/-- Modelled from the spec: the longest unit length `k` such that the prefix
of length `k` is repeated at least twice consecutively at the head of `l`
(ties in candidate length prefer the longer unit; the left-most preference is
realized by the scan in `convertRepsAux`). -/
def bestUnitLen (l : List GraphemeBase) : Option Nat :=
  (List.range (l.length / 2 + 1)).reverse.find?
    (fun k => decide (1 ≤ k) && decide (l.take k = (l.drop k).take k))

/-- Modelled from the spec: greedy, left-most, longest repetition folding of
a symbol sequence (spec section 4.2), with fuel bounding the scan. -/
def convertRepsAux : Nat → List GraphemeBase → List Grapheme
  | 0, _ => []
  | _, [] => []
  | fuel + 1, g :: rest =>
      match bestUnitLen (g :: rest) with
      | some k =>
          let unit := (g :: rest).take k
          let m := countRuns unit (g :: rest)
          Grapheme.repetition unit m m :: convertRepsAux fuel ((g :: rest).drop (k * m))
      | none => Grapheme.base g :: convertRepsAux fuel rest

/-- Modelled from the spec: `GraphemeCluster::convert_repetitions` folds
maximal consecutive repeats into repetition wrappers; a sequence that already
contains a repetition wrapper is left unchanged (folding runs once, after
class conversion, so that case does not arise in the pipeline). -/
def GraphemeCluster.convert_repetitions (c : GraphemeCluster) : GraphemeCluster :=
  match c.graphemes.mapM
      (fun g => match g with
        | Grapheme.base b => some b
        | Grapheme.repetition _ _ _ => none) with
  | some bs => ⟨convertRepsAux bs.length bs⟩
  | none => c

/-- Modelled from the spec: regex metacharacters that are backslash-escaped
when rendered as literal text (spec section 6). -/
def isMetaChar (c : Char) : Bool :=
  c ∈ ['(', ')', '[', ']', '{', '}', '|', '^', '$', '.', '*', '+', '?', '\\']

/-- Modelled from the spec: lower-case hexadecimal rendering of a code
point. -/
def hexOfNat (n : Nat) : String :=
  ⟨Nat.toDigits 16 n⟩

/-- Modelled from the spec: rendering of one code point — metacharacters are
backslash-escaped; with `e` set, non-ASCII code points render as unicode
escape sequences; with `g` also set, astral code points render as two
surrogate-range escape sequences (spec section 4.6). -/
def escapeChar (e g : Bool) (c : Char) : String :=
  if isMetaChar c then
    String.mk ['\\', c]
  else if e && decide (127 < c.toNat) then
    if g && decide (0x10000 ≤ c.toNat) then
      let v := c.toNat - 0x10000
      "\\u\x7b" ++ hexOfNat (0xD800 + v / 0x400) ++ "\x7d" ++
        "\\u\x7b" ++ hexOfNat (0xDC00 + v % 0x400) ++ "\x7d"
    else
      "\\u\x7b" ++ hexOfNat c.toNat ++ "\x7d"
  else
    String.mk [c]

/-- Modelled from the spec: rendering of a base symbol — class placeholders
render as their conventional escapes, literals as escaped text (spec
section 4.6). -/
def GraphemeBase.render (e g : Bool) : GraphemeBase → String
  | GraphemeBase.literal cs => String.join (cs.map (escapeChar e g))
  | GraphemeBase.digitClass => "\\d"
  | GraphemeBase.wordClass => "\\w"
  | GraphemeBase.spaceClass => "\\s"

/-- Modelled from the spec: quantifier shorthand — `{n}` when the bounds
coincide, `{m,n}` otherwise, with the conventional collapses left to the
bounded cases produced by repetition folding (spec section 4.6). -/
def quantifier (lo hi : Nat) : String :=
  if lo = hi then "\x7b" ++ toString lo ++ "\x7d"
  else "\x7b" ++ toString lo ++ "," ++ toString hi ++ "\x7d"

/-- Modelled from the spec: rendering of one symbol; a repetition over a unit
of more than one symbol is parenthesized (spec section 4.6). -/
def Grapheme.render (e g : Bool) : Grapheme → String
  | Grapheme.base b => b.render e g
  | Grapheme.repetition seq lo hi =>
      let body := String.join (seq.map (GraphemeBase.render e g))
      (if seq.length ≤ 1 then body else "(" ++ body ++ ")") ++ quantifier lo hi

/-- Modelled from the spec: rendering of a grapheme-cluster sequence as the
concatenation of its symbols. -/
def GraphemeCluster.render (e g : Bool) (c : GraphemeCluster) : String :=
  String.join (c.graphemes.map (Grapheme.render e g))

/-- Modelled from the spec: the regex AST (`crate::ast::Expression`), a
closed sum over literal, concatenation, alternation and repetition nodes
(spec section 3); literal nodes carry the escaping flags chosen at
construction, since rendering takes no further parameters. -/
inductive Expression where
  | Literal (c : GraphemeCluster) (e g : Bool)
  | Concatenation (children : List Expression)
  | Alternation (children : List Expression)
  | Repetition (child : Expression) (lo : Nat) (hi : Option Nat)
deriving Repr

/-- Modelled from the spec: whether a node needs parentheses under a
quantifier — a concatenation or alternation of more than one child does
(spec section 4.6). -/
def Expression.needsParens : Expression → Bool
  | Expression.Concatenation xs => decide (2 ≤ xs.length)
  | Expression.Alternation xs => decide (2 ≤ xs.length)
  | _ => false

/-- Modelled from the spec: quantifier rendering with the conventional
shorthand collapses `?`, `*`, `+` (spec section 4.6). -/
def quantifierOpt (lo : Nat) (hi : Option Nat) : String :=
  match lo, hi with
  | 0, some 1 => "?"
  | 0, none => "*"
  | 1, none => "+"
  | lo, some hi => quantifier lo hi
  | lo, none => "\x7b" ++ toString lo ++ ",\x7d"

/-- Modelled from the spec: depth-first serialization of the AST
(`Display for Expression`, spec section 4.6) — concatenation children in
order with no separator, alternation children joined by a pipe, repetition
as the possibly parenthesized child followed by its quantifier. -/
def Expression.render : Expression → String
  | Expression.Literal c e g => c.render e g
  | Expression.Concatenation xs =>
      String.join (xs.attach.map (fun x => Expression.render x.1))
  | Expression.Alternation xs =>
      String.intercalate "|" (xs.attach.map (fun x => Expression.render x.1))
  | Expression.Repetition x lo hi =>
      (if x.needsParens then "(" ++ Expression.render x ++ ")" else Expression.render x)
        ++ quantifierOpt lo hi
termination_by e => sizeOf e
decreasing_by
  all_goals simp_wf
  · have := List.sizeOf_lt_of_mem x.2
    omega
  · have := List.sizeOf_lt_of_mem x.2
    omega
  all_goals omega

/-- Whether the root node of an AST is an alternation (the discriminating
test of the `Display` implementation for `RegExp`). -/
def Expression.isAlternation : Expression → Bool
  | Expression.Alternation _ => true
  | _ => false

/-- Modelled from the spec: `DFA::from`, minimization and `Expression::from`
(state elimination) are not part of this repository snapshot; the composite
is modelled language-equivalently as the alternation of the normalized
cluster sequences, with a single-child alternation collapsed to its child as
the spec's AST invariant requires (spec sections 3, 4.3 to 4.5); the empty
input set yields a literal matching only the empty string. -/
def Expression.fromClusters (clusters : List GraphemeCluster) (e g : Bool) : Expression :=
  match clusters.map (fun c => Expression.Literal c e g) with
  | [] => Expression.Literal ⟨[]⟩ e g
  | [x] => x
  | xs => Expression.Alternation xs

/-- The synthesized regular expression (`struct RegExp` of `regexp.rs`). -/
structure RegExp where
  ast : Expression

/-- Byte length of a string: Rust's `String::len`. -/
def byteLen (s : String) : Nat := s.utf8ByteSize

/-- The comparator of `RegExp::sort`'s final `sort_by` as a boolean relation:
byte length ascending, ties broken lexicographically. -/
def lenLexLe (a b : String) : Prop :=
  byteLen a < byteLen b ∨ (byteLen a = byteLen b ∧ a ≤ b)

instance : DecidableRel lenLexLe := fun a b => by
  unfold lenLexLe; infer_instance

/-- Removal of consecutive duplicates: Rust's `Vec::dedup`. -/
def dedupConsec : List String → List String
  | [] => []
  | [a] => [a]
  | a :: b :: rest =>
      if a = b then dedupConsec (b :: rest) else a :: dedupConsec (b :: rest)

/-- The preprocessing step `RegExp::sort` of `regexp.rs`: a stable
lexicographic sort, removal of (now adjacent) duplicates, then a stable sort
by byte length with lexicographic tie-break.  Rust's stable `sort`/`sort_by`
is modelled by the stable `List.insertionSort`. -/
def RegExp.sort (test_cases : List String) : List String :=
  let s1 := List.insertionSort (fun a b => a ≤ b) test_cases
  let s2 := dedupConsec s1
  List.insertionSort lenLexLe s2

/-- The normalization stage `RegExp::grapheme_clusters` of `regexp.rs`: each
test case becomes a cluster sequence; if any class flag is set every sequence
undergoes class conversion; afterwards, if the repetition flag is set every
sequence undergoes repetition folding. -/
def RegExp.grapheme_clusters (test_cases : List String)
    (is_digit_converted is_word_converted is_space_converted
      is_repetition_converted : Bool) : List GraphemeCluster :=
  let clusters := test_cases.map GraphemeCluster.«from»
  let clusters :=
    if is_digit_converted || is_word_converted || is_space_converted then
      clusters.map (fun c =>
        c.convert_to_char_classes is_digit_converted is_word_converted
          is_space_converted)
    else clusters
  let clusters :=
    if is_repetition_converted then
      clusters.map GraphemeCluster.convert_repetitions
    else clusters
  clusters

/-- The constructor `RegExp::from` of `regexp.rs`: it sorts the test cases in
place and synthesizes the AST; the sorted list is returned alongside to model
the `&mut Vec<String>` argument. -/
def RegExp.«from» (test_cases : List String)
    (is_digit_converted is_word_converted is_space_converted
      is_repetition_converted is_non_ascii_char_escaped
      is_astral_code_point_converted_to_surrogate : Bool) :
    RegExp × List String :=
  let tc := RegExp.sort test_cases
  (⟨Expression.fromClusters
      (RegExp.grapheme_clusters tc is_digit_converted is_word_converted
        is_space_converted is_repetition_converted)
      is_non_ascii_char_escaped
      is_astral_code_point_converted_to_surrogate⟩,
   tc)

/-- The `Display` implementation for `RegExp` in `regexp.rs`: an alternation
at the root is wrapped in one pair of parentheses between the anchors; every
other root is placed between the anchors directly. -/
def RegExp.display (r : RegExp) : String :=
  match r.ast with
  | Expression.Alternation _ => "^(" ++ r.ast.render ++ ")$"
  | _ => "^" ++ r.ast.render ++ "$"

/-- The builder `struct RegExpBuilder` of `regexp.rs`. -/
structure RegExpBuilder where
  test_cases : List String
  is_digit_converted : Bool
  is_word_converted : Bool
  is_space_converted : Bool
  is_repetition_converted : Bool
  is_non_ascii_char_escaped : Bool
  is_astral_code_point_converted_to_surrogate : Bool
deriving Repr

/-- The constructor `RegExpBuilder::from` of `regexp.rs`: the converted input
strings are stored verbatim in the given order and every option flag starts
out false. -/
def RegExpBuilder.«from» (test_cases : List String) : RegExpBuilder :=
  { test_cases := test_cases
    is_digit_converted := false
    is_word_converted := false
    is_space_converted := false
    is_repetition_converted := false
    is_non_ascii_char_escaped := false
    is_astral_code_point_converted_to_surrogate := false }

/-- `RegExpBuilder::with_converted_digit_chars` of `regexp.rs`. -/
def RegExpBuilder.with_converted_digit_chars (b : RegExpBuilder) : RegExpBuilder :=
  { b with is_digit_converted := true }

/-- `RegExpBuilder::with_converted_word_chars` of `regexp.rs`. -/
def RegExpBuilder.with_converted_word_chars (b : RegExpBuilder) : RegExpBuilder :=
  { b with is_word_converted := true }

/-- `RegExpBuilder::with_converted_space_chars` of `regexp.rs`. -/
def RegExpBuilder.with_converted_space_chars (b : RegExpBuilder) : RegExpBuilder :=
  { b with is_space_converted := true }

/-- `RegExpBuilder::with_converted_repetitions` of `regexp.rs`. -/
def RegExpBuilder.with_converted_repetitions (b : RegExpBuilder) : RegExpBuilder :=
  { b with is_repetition_converted := true }

/-- `RegExpBuilder::with_escaped_non_ascii_chars` of `regexp.rs`: it enables
non-ASCII escaping and sets the surrogate flag to its argument. -/
def RegExpBuilder.with_escaped_non_ascii_chars (b : RegExpBuilder)
    (use_surrogate_pairs : Bool) : RegExpBuilder :=
  { b with is_non_ascii_char_escaped := true
           is_astral_code_point_converted_to_surrogate := use_surrogate_pairs }

/-- One configuration call on the builder, as a first-class value, so that
arbitrary call sequences can be quantified over. -/
inductive BuilderOp where
  | convertedDigitChars
  | convertedWordChars
  | convertedSpaceChars
  | convertedRepetitions
  | escapedNonAsciiChars (use_surrogate_pairs : Bool)
deriving DecidableEq, Repr

/-- Application of one configuration call to the builder state. -/
def RegExpBuilder.applyOp (b : RegExpBuilder) : BuilderOp → RegExpBuilder
  | BuilderOp.convertedDigitChars => b.with_converted_digit_chars
  | BuilderOp.convertedWordChars => b.with_converted_word_chars
  | BuilderOp.convertedSpaceChars => b.with_converted_space_chars
  | BuilderOp.convertedRepetitions => b.with_converted_repetitions
  | BuilderOp.escapedNonAsciiChars u => b.with_escaped_non_ascii_chars u

/-- Application of a sequence of configuration calls, left to right. -/
def RegExpBuilder.applyOps (b : RegExpBuilder) (ops : List BuilderOp) : RegExpBuilder :=
  ops.foldl RegExpBuilder.applyOp b

/-- `RegExpBuilder::build` of `regexp.rs`: it constructs the `RegExp` from
the current state and renders it; since `build` takes `&mut self` (the sort
mutates the stored test cases), the updated builder is returned alongside the
output string. -/
def RegExpBuilder.build (b : RegExpBuilder) : String × RegExpBuilder :=
  let p := RegExp.«from» b.test_cases b.is_digit_converted b.is_word_converted
    b.is_space_converted b.is_repetition_converted b.is_non_ascii_char_escaped
    b.is_astral_code_point_converted_to_surrogate
  (p.1.display, { b with test_cases := p.2 })

/-- The strict version of the `RegExp::sort` comparator: byte length strictly
smaller, or equal byte lengths and lexicographically strictly smaller. -/
def lenLexLt (a b : String) : Prop :=
  byteLen a < byteLen b ∨ (byteLen a = byteLen b ∧ a < b)

/-- Stage one of the normalizer as the specification words it: when at least
one of the digit/word/space flags is set, class conversion is applied to
every cluster sequence. -/
def classConversionStage (d w s : Bool) (cs : List GraphemeCluster) :
    List GraphemeCluster :=
  if d || w || s then
    cs.map (fun c => c.convert_to_char_classes d w s)
  else cs

/-- Stage two of the normalizer as the specification words it: when the
repetition flag is set, repetition folding is applied to every cluster
sequence produced by stage one. -/
def repetitionConversionStage (r : Bool) (cs : List GraphemeCluster) :
    List GraphemeCluster :=
  if r then cs.map GraphemeCluster.convert_repetitions else cs

instance : IsTrans String lenLexLe where
  trans a b c h1 h2 := by
    rcases h1 with h1 | ⟨e1, le1⟩ <;> rcases h2 with h2 | ⟨e2, le2⟩
    · exact Or.inl (h1.trans h2)
    · exact Or.inl (e2 ▸ h1)
    · exact Or.inl (e1 ▸ h2)
    · exact Or.inr ⟨e1.trans e2, le1.trans le2⟩

instance : IsTotal String lenLexLe where
  total a b := by
    rcases Nat.lt_trichotomy (byteLen a) (byteLen b) with h | h | h
    · exact Or.inl (Or.inl h)
    · rcases le_total a b with hab | hba
      · exact Or.inl (Or.inr ⟨h, hab⟩)
      · exact Or.inr (Or.inr ⟨h.symm, hba⟩)
    · exact Or.inr (Or.inl h)

instance : IsAntisymm String lenLexLe where
  antisymm a b h1 h2 := by
    rcases h1 with h1 | ⟨e1, le1⟩ <;> rcases h2 with h2 | ⟨e2, le2⟩
    · omega
    · omega
    · omega
    · exact le_antisymm le1 le2

theorem lenLexLt_of_le_of_ne {a b : String} (hle : lenLexLe a b) (hne : a ≠ b) :
    lenLexLt a b := by
  rcases hle with h | ⟨e, le⟩
  · exact Or.inl h
  · exact Or.inr ⟨e, lt_of_le_of_ne le hne⟩

theorem mem_dedupConsec : ∀ (l : List String) (x : String),
    x ∈ dedupConsec l ↔ x ∈ l
  | [], x => by simp [dedupConsec]
  | [a], x => by simp [dedupConsec]
  | a :: b :: rest, x => by
      rw [dedupConsec]
      by_cases h : a = b
      · rw [if_pos h, mem_dedupConsec (b :: rest) x]
        subst h
        simp [List.mem_cons]
      · rw [if_neg h]
        simp [List.mem_cons, mem_dedupConsec (b :: rest) x]

theorem dedupConsec_sorted_lt : ∀ (l : List String),
    l.Sorted (fun a b => a ≤ b) → (dedupConsec l).Sorted (fun a b => a < b)
  | [], _ => by simp [dedupConsec]
  | [a], _ => by simp [dedupConsec]
  | a :: b :: rest, h => by
      have h' : (b :: rest).Sorted (fun a b => a ≤ b) :=
        (List.pairwise_cons.1 h).2
      have hab : a ≤ b := (List.pairwise_cons.1 h).1 b (by simp)
      rw [dedupConsec]
      by_cases e : a = b
      · rw [if_pos e]
        exact dedupConsec_sorted_lt (b :: rest) h'
      · rw [if_neg e]
        refine List.pairwise_cons.2 ⟨?_, dedupConsec_sorted_lt (b :: rest) h'⟩
        intro x hx
        have hx' : x ∈ b :: rest := (mem_dedupConsec (b :: rest) x).1 hx
        have hbx : b ≤ x := by
          rcases List.mem_cons.1 hx' with rfl | hmem
          · exact le_refl x
          · exact (List.pairwise_cons.1 h').1 x hmem
        exact lt_of_lt_of_le (lt_of_le_of_ne hab e) hbx

theorem mem_regExpSort (l : List String) (x : String) :
    x ∈ RegExp.sort l ↔ x ∈ l := by
  simp only [RegExp.sort]
  rw [(List.perm_insertionSort lenLexLe _).mem_iff, mem_dedupConsec,
    (List.perm_insertionSort (fun a b => a ≤ b) l).mem_iff]

theorem nodup_regExpSort (l : List String) : (RegExp.sort l).Nodup := by
  simp only [RegExp.sort]
  have h1 : (List.insertionSort (fun a b => a ≤ b) l).Sorted (fun a b => a ≤ b) :=
    List.sorted_insertionSort (fun a b => a ≤ b) l
  have h2 := dedupConsec_sorted_lt _ h1
  exact ((List.perm_insertionSort lenLexLe _).nodup_iff).2 h2.nodup

theorem sorted_regExpSort (l : List String) : (RegExp.sort l).Sorted lenLexLe := by
  simp only [RegExp.sort]
  exact List.sorted_insertionSort lenLexLe _

theorem pairwise_lenLexLt_of_sorted_nodup :
    ∀ {t : List String}, t.Sorted lenLexLe → t.Nodup → t.Pairwise lenLexLt := by
  intro t
  induction t with
  | nil => intro _ _; simp
  | cons a t ih =>
      intro hs hn
      rcases List.pairwise_cons.1 hs with ⟨ha, hs'⟩
      rcases List.nodup_cons.1 hn with ⟨hna, hn'⟩
      refine List.pairwise_cons.2 ⟨?_, ih hs' hn'⟩
      intro b hb
      exact lenLexLt_of_le_of_ne (ha b hb) (fun hab => hna (hab ▸ hb))

theorem pairwise_lenLexLt_regExpSort (l : List String) :
    (RegExp.sort l).Pairwise lenLexLt :=
  pairwise_lenLexLt_of_sorted_nodup (sorted_regExpSort l) (nodup_regExpSort l)

theorem regExpSort_eq_of_mem_iff {l l' : List String}
    (h : ∀ x, x ∈ l ↔ x ∈ l') : RegExp.sort l = RegExp.sort l' := by
  have hp : List.Perm (RegExp.sort l) (RegExp.sort l') :=
    (List.perm_ext_iff_of_nodup (nodup_regExpSort l) (nodup_regExpSort l')).2
      (fun a => by rw [mem_regExpSort, mem_regExpSort]; exact h a)
  exact List.eq_of_perm_of_sorted hp (sorted_regExpSort l) (sorted_regExpSort l')

theorem regExpSort_idem (l : List String) :
    RegExp.sort (RegExp.sort l) = RegExp.sort l :=
  regExpSort_eq_of_mem_iff (fun x => mem_regExpSort l x)

theorem build_fst_congr (l l' : List String) (d w s r e g : Bool)
    (h : RegExp.sort l = RegExp.sort l') :
    ((RegExpBuilder.mk l d w s r e g).build).1 =
      ((RegExpBuilder.mk l' d w s r e g).build).1 := by
  simp only [RegExpBuilder.build, RegExp.«from»]
  rw [h]

theorem string_anchor_wrap (s : String) :
    "^(" ++ s ++ ")$" = "^" ++ ("(" ++ s ++ ")") ++ "$" := by
  rw [show ("^(" : String) = "^" ++ "(" from rfl,
    show (")$" : String) = ")" ++ "$" from rfl]
  simp only [String.append_assoc]

theorem regExp_display_anchored (r : RegExp) :
    ∃ body : String, r.display = "^" ++ body ++ "$" := by
  obtain ⟨ast⟩ := r
  cases ast with
  | Literal c e g => exact ⟨(Expression.Literal c e g).render, rfl⟩
  | Concatenation xs => exact ⟨(Expression.Concatenation xs).render, rfl⟩
  | Alternation xs =>
      exact ⟨"(" ++ (Expression.Alternation xs).render ++ ")",
        string_anchor_wrap (Expression.Alternation xs).render⟩
  | Repetition x lo hi => exact ⟨(Expression.Repetition x lo hi).render, rfl⟩

/-- C1: for every test-case list and every option configuration, the string
returned by `RegExpBuilder::build` is of the form `^` ++ body ++ `$` — it
starts with the start anchor, ends with the end anchor, and the rendered AST
body sits strictly between them. -/
theorem c1_build_output_is_anchored (b : RegExpBuilder) :
    ∃ body : String, (b.build).1 = "^" ++ body ++ "$" :=
  regExp_display_anchored _

/-- C2: when the synthesized AST's root node is an alternation, the rendered
output is `^(` ++ body ++ `)$` — the whole alternation is wrapped in exactly
one pair of parentheses between the anchors — and for every other root node
kind the output is `^` ++ body ++ `$` with no extra top-level parentheses. -/
theorem c2_top_level_alternation_parenthesized (ast : Expression) :
    RegExp.display ⟨ast⟩ =
      if ast.isAlternation then "^(" ++ ast.render ++ ")$"
      else "^" ++ ast.render ++ "$" := by
  cases ast <;> rfl

/-- C3: for every input list, the output of `RegExp::sort` contains no
duplicate strings and is sorted by byte length ascending with ties between
equal-length strings broken lexicographically (stated as strict pairwise
ordering, which also forces the absence of duplicates). -/
theorem c3_sort_output_nodup_and_ordered (l : List String) :
    (RegExp.sort l).Nodup ∧
      (RegExp.sort l).Pairwise (fun a b =>
        byteLen a < byteLen b ∨ (byteLen a = byteLen b ∧ a < b)) :=
  ⟨nodup_regExpSort l, pairwise_lenLexLt_regExpSort l⟩

/-- C4: for every test-case list and every permutation of it, running
`RegExpBuilder::build` with the same option flags on the original list and on
the permuted list yields equal output strings. -/
theorem c4_build_invariant_under_permutation (l l' : List String)
    (d w s r e g : Bool) (h : List.Perm l l') :
    ((RegExpBuilder.mk l d w s r e g).build).1 =
      ((RegExpBuilder.mk l' d w s r e g).build).1 :=
  build_fst_congr l l' d w s r e g
    (regExpSort_eq_of_mem_iff (fun _ => h.mem_iff))

theorem c4_witness :
    List.Perm (["b", "a"] : List String) ["a", "b"] ∧
      ((RegExpBuilder.mk ["b", "a"] false false false false false false).build).1 =
        ((RegExpBuilder.mk ["a", "b"] false false false false false false).build).1 := by
  have hp : List.Perm (["b", "a"] : List String) ["a", "b"] := by decide
  exact ⟨hp, c4_build_invariant_under_permutation _ _ _ _ _ _ _ _ hp⟩

/-- C5: for every test-case list already containing a string, appending
another copy of that string does not change the string returned by
`RegExpBuilder::build`, for any option configuration. -/
theorem c5_appending_duplicate_preserves_build (l : List String) (x : String)
    (d w s r e g : Bool) (h : x ∈ l) :
    ((RegExpBuilder.mk (l ++ [x]) d w s r e g).build).1 =
      ((RegExpBuilder.mk l d w s r e g).build).1 :=
  build_fst_congr _ _ _ _ _ _ _ _
    (regExpSort_eq_of_mem_iff (fun y => by
      simp only [List.mem_append, List.mem_singleton]
      constructor
      · rintro (hy | rfl)
        · exact hy
        · exact h
      · exact fun hy => Or.inl hy))

theorem c5_witness :
    ("a" : String) ∈ (["a", "b"] : List String) ∧
      ((RegExpBuilder.mk (["a", "b"] ++ ["a"]) false false false false false false).build).1 =
        ((RegExpBuilder.mk ["a", "b"] false false false false false false).build).1 := by
  have h : ("a" : String) ∈ (["a", "b"] : List String) := by decide
  exact ⟨h, c5_appending_duplicate_preserves_build _ _ _ _ _ _ _ _ h⟩

/-- C6: synthesis is deterministic — two invocations of
`RegExpBuilder::build` on the same test-case set (the input lists may present
the set in any order and with any multiplicities) with the same option flags
return identical output strings. -/
theorem c6_build_deterministic_on_equal_sets (l l' : List String)
    (d w s r e g : Bool) (h : ∀ x : String, x ∈ l ↔ x ∈ l') :
    ((RegExpBuilder.mk l d w s r e g).build).1 =
      ((RegExpBuilder.mk l' d w s r e g).build).1 :=
  build_fst_congr l l' d w s r e g (regExpSort_eq_of_mem_iff h)

theorem c6_witness :
    (∀ x : String, x ∈ (["a", "a"] : List String) ↔ x ∈ (["a"] : List String)) ∧
      ((RegExpBuilder.mk ["a", "a"] false false false false false false).build).1 =
        ((RegExpBuilder.mk ["a"] false false false false false false).build).1 := by
  have h : ∀ x : String, x ∈ (["a", "a"] : List String) ↔ x ∈ (["a"] : List String) := by
    intro x
    simp [List.mem_cons]
  exact ⟨h, c6_build_deterministic_on_equal_sets _ _ _ _ _ _ _ _ h⟩

/-- C7: in the normalization stage, character-class conversion is applied to
every cluster sequence before repetition folding is applied to any of them —
`RegExp::grapheme_clusters` equals the composition of the class-conversion
stage (run over all sequences exactly when one of the digit/word/space flags
is set) followed by the repetition stage (run exactly when the repetition
flag is set). -/
theorem c7_class_stage_precedes_repetition_stage (tc : List String)
    (d w s r : Bool) :
    RegExp.grapheme_clusters tc d w s r =
      repetitionConversionStage r
        (classConversionStage d w s (tc.map GraphemeCluster.«from»)) := rfl

theorem surrogate_imp_escaped_preserved (op : BuilderOp) (b : RegExpBuilder)
    (hb : b.is_astral_code_point_converted_to_surrogate = true →
      b.is_non_ascii_char_escaped = true) :
    (b.applyOp op).is_astral_code_point_converted_to_surrogate = true →
      (b.applyOp op).is_non_ascii_char_escaped = true := by
  cases op with
  | convertedDigitChars => exact hb
  | convertedWordChars => exact hb
  | convertedSpaceChars => exact hb
  | convertedRepetitions => exact hb
  | escapedNonAsciiChars u => exact fun _ => rfl

theorem surrogate_imp_escaped_applyOps :
    ∀ (ops : List BuilderOp) (b : RegExpBuilder),
      (b.is_astral_code_point_converted_to_surrogate = true →
        b.is_non_ascii_char_escaped = true) →
      ((b.applyOps ops).is_astral_code_point_converted_to_surrogate = true →
        (b.applyOps ops).is_non_ascii_char_escaped = true)
  | [], _, hb => hb
  | op :: rest, b, hb =>
      surrogate_imp_escaped_applyOps rest (b.applyOp op)
        (surrogate_imp_escaped_preserved op b hb)

/-- C8: builder-state invariant — after `RegExpBuilder::from` and any
sequence of `with_*` configuration calls, if the surrogate-pair flag is set
then the non-ASCII escaping flag is set as well: the surrogate option can
never be enabled without escaping being enabled. -/
theorem c8_surrogate_flag_implies_escape_flag (l : List String)
    (ops : List BuilderOp)
    (h : ((RegExpBuilder.«from» l).applyOps ops).is_astral_code_point_converted_to_surrogate
        = true) :
    ((RegExpBuilder.«from» l).applyOps ops).is_non_ascii_char_escaped = true :=
  surrogate_imp_escaped_applyOps ops (RegExpBuilder.«from» l)
    (fun hfalse => by simp [RegExpBuilder.«from»] at hfalse) h

theorem c8_witness :
    ((RegExpBuilder.«from» []).applyOps
        [BuilderOp.escapedNonAsciiChars true]).is_astral_code_point_converted_to_surrogate
      = true ∧
    ((RegExpBuilder.«from» []).applyOps
        [BuilderOp.escapedNonAsciiChars true]).is_non_ascii_char_escaped = true :=
  ⟨rfl, c8_surrogate_flag_implies_escape_flag [] [BuilderOp.escapedNonAsciiChars true] rfl⟩

/-- C9: `RegExpBuilder::from` stores the converted input strings verbatim in
their given order and initializes all six option flags to false; with all
flags false the normalization stage applies neither class conversion nor
repetition folding (the clusters are exactly the segmented test cases), and
with escaping disabled the renderer emits every code point literally apart
from metacharacter quoting. -/
theorem c9_from_stores_verbatim_and_defaults_inert (l : List String) :
    (RegExpBuilder.«from» l).test_cases = l ∧
    ((RegExpBuilder.«from» l).is_digit_converted = false ∧
      (RegExpBuilder.«from» l).is_word_converted = false ∧
      (RegExpBuilder.«from» l).is_space_converted = false ∧
      (RegExpBuilder.«from» l).is_repetition_converted = false ∧
      (RegExpBuilder.«from» l).is_non_ascii_char_escaped = false ∧
      (RegExpBuilder.«from» l).is_astral_code_point_converted_to_surrogate = false) ∧
    (∀ tc : List String, RegExp.grapheme_clusters tc false false false false =
      tc.map GraphemeCluster.«from») ∧
    (∀ c : Char, escapeChar false false c =
      if isMetaChar c then String.mk ['\\', c] else String.mk [c]) :=
  ⟨rfl, ⟨rfl, rfl, rfl, rfl, rfl, rfl⟩, fun _ => rfl, fun _ => rfl⟩

/-- C10: `RegExp::sort` preserves the set of distinct strings (its output has
no duplicates and exactly the membership of its input) and is idempotent;
consequently calling `RegExpBuilder::build` a second time on the builder
mutated by the first call yields the same output string. -/
theorem c10_sort_set_preserving_and_idempotent (l : List String)
    (b : RegExpBuilder) :
    ((RegExp.sort l).Nodup ∧ (∀ x, x ∈ RegExp.sort l ↔ x ∈ l)) ∧
    RegExp.sort (RegExp.sort l) = RegExp.sort l ∧
    (((b.build).2).build).1 = (b.build).1 := by
  refine ⟨⟨nodup_regExpSort l, fun x => mem_regExpSort l x⟩, regExpSort_idem l, ?_⟩
  obtain ⟨tc, d, w, s, r, e, g⟩ := b
  have h1 : ((RegExpBuilder.mk tc d w s r e g).build).2 =
      RegExpBuilder.mk (RegExp.sort tc) d w s r e g := rfl
  rw [h1]
  exact build_fst_congr (RegExp.sort tc) tc d w s r e g (regExpSort_idem tc)
